import Mathlib

/-!
Shallow embedding of the ClashKingProxy repository (Go `server.go` net/http
variant, Go `main.go` fasthttp variant) and proofs about its specification:
API-key round-robin rotation, the per-second metrics ring buffer, the
request-forwarding URL rewriting, the response-header allow-list, startup
key loading, and the fasthttp path rewriting.

Machine integers are modelled as `Nat`/`Int` with explicit `% 2 ^ w` where
the Go code can overflow (the `uint32` rotation counter, the `uint32` hit
counters, the `uint64` latency accumulators).  Go's `%` on `int` is the
truncated remainder, modelled by `Int.tmod`.  A Go runtime panic (negative
slice index) is modelled by `Option`/`none`.
-/

namespace CK

/-! ## Go string helpers (byte/char level; the proxy only handles ASCII
request targets, where Go's byte-wise string functions coincide with the
char-wise functions used here). -/

/-- Go `strings.Split(s, sep)` for a one-char separator, on char lists:
splits at every occurrence of `sep`, keeping empty pieces. -/
def splitListChar (sep : Char) : List Char → List (List Char)
  | [] => [[]]
  | c :: rest =>
    let r := splitListChar sep rest
    if c = sep then [] :: r
    else
      match r with
      | [] => [[c]]
      | h :: t => (c :: h) :: t

/-- Go `strings.Split(s, sep)` for a one-char separator. -/
def goSplit (sep : Char) (s : String) : List String :=
  (splitListChar sep s.data).map String.mk

/-- Whitespace characters trimmed by Go `strings.TrimSpace` (ASCII subset;
the key configuration contains only ASCII). -/
def isGoSpace (c : Char) : Bool :=
  c == ' ' || c == '\t' || c == '\n' || c == '\x0d' || c == '\x0b' || c == '\x0c'

/-- Go `strings.TrimSpace` (ASCII whitespace). -/
def goTrimSpace (s : String) : String :=
  String.mk (((s.data.dropWhile isGoSpace).reverse.dropWhile isGoSpace).reverse)

/-- Go `strings.TrimPrefix(s, pre)`: drops `pre` when it is a prefix,
otherwise returns `s` unchanged. -/
def goTrimPre (s pre : String) : String :=
  if pre.data.isPrefixOf s.data then String.mk (s.data.drop pre.data.length) else s

/-- Whether `sub` occurs as a contiguous sublist of `l`. -/
def listInfixOf (sub : List Char) : List Char → Bool
  | [] => sub.isEmpty
  | x :: t => sub.isPrefixOf (x :: t) || listInfixOf sub t

/-- Go `strings.Contains(s, sub)`. -/
def goContains (s sub : String) : Bool :=
  listInfixOf sub.data s.data

/-- Splits a char list at the first occurrence of `c` (the char itself is
dropped); `none` when `c` does not occur.  Used to model Go
`strings.SplitN(s, sep, 2)` and `net/url` query extraction. -/
def breakAtChar (c : Char) : List Char → Option (List Char × List Char)
  | [] => none
  | x :: rest =>
    if x = c then some ([], rest)
    else
      match breakAtChar c rest with
      | none => none
      | some (a, b) => some (x :: a, b)

/-- Uppercase hex digit of `n < 16`, as produced by Go `net/url` escaping. -/
def hexDigit (n : Nat) : Char :=
  if n < 10 then Char.ofNat ('0'.toNat + n) else Char.ofNat ('A'.toNat + (n - 10))

/-- Hex value of a digit char accepted by Go `net/url` unescaping. -/
def hexVal (c : Char) : Option Nat :=
  if '0' ≤ c ∧ c ≤ '9' then some (c.toNat - '0'.toNat)
  else if 'a' ≤ c ∧ c ≤ 'f' then some (c.toNat - 'a'.toNat + 10)
  else if 'A' ≤ c ∧ c ≤ 'F' then some (c.toNat - 'A'.toNat + 10)
  else none

/-- Go `url.QueryUnescape` on char lists: decodes `%XX` and `+`.
(Go reports an error on a malformed `%`; the proxy's inputs are
well-formed, and a malformed escape is kept literally here.) -/
def unescList : List Char → List Char
  | [] => []
  | '%' :: h1 :: h2 :: rest =>
    match hexVal h1, hexVal h2 with
    | some v1, some v2 => Char.ofNat (16 * v1 + v2) :: unescList rest
    | _, _ => '%' :: unescList (h1 :: h2 :: rest)
  | '+' :: rest => ' ' :: unescList rest
  | c :: rest => c :: unescList rest

/-- Characters Go `url.QueryEscape` leaves unescaped (RFC 3986 unreserved). -/
def isUnreserved (c : Char) : Bool :=
  c.isAlphanum || c == '-' || c == '_' || c == '.' || c == '~'

/-- Go `url.QueryEscape` of one ASCII char. -/
def queryEscChar (c : Char) : List Char :=
  if isUnreserved c then [c]
  else if c == ' ' then ['+']
  else ['%', hexDigit (c.toNat / 16 % 16), hexDigit (c.toNat % 16)]

/-- Go `url.QueryEscape` (ASCII input, as in all proxied URLs). -/
def queryEscape (s : String) : String :=
  String.mk (s.data.foldr (fun c acc => queryEscChar c ++ acc) [])

/-- The raw query of a request target: everything after the first `?`
(empty when there is none), as parsed into `r.URL.RawQuery` by `net/http`. -/
def rawQueryOf (requestURI : String) : String :=
  match breakAtChar '?' requestURI.data with
  | none => ""
  | some (_, q) => String.mk q

/-- Go `url.ParseQuery` (hence `r.URL.Query()`): split the raw query on
`&`, skip empty pieces, split each piece at the first `=`, unescape key
and value.  Represented as an ordered key/value list. -/
def parseQuery (rawQuery : String) : List (String × String) :=
  ((goSplit '&' rawQuery).filter (fun p => p ≠ "")).map (fun part =>
    match breakAtChar '=' part.data with
    | none => (String.mk (unescList part.data), "")
    | some (k, v) => (String.mk (unescList k), String.mk (unescList v)))

/-- Go `url.Values.Del(key)`: removes every pair with the given key. -/
def delKey (k : String) (q : List (String × String)) : List (String × String) :=
  q.filter (fun p => p.1 ≠ k)

/-- Stable insertion by key order, used to model the key sort performed by
Go `url.Values.Encode`. -/
def insertByKey (p : String × String) : List (String × String) → List (String × String)
  | [] => [p]
  | q :: rest => if p.1 < q.1 then p :: q :: rest else q :: insertByKey p rest

/-- Stable sort by key (Go `url.Values.Encode` sorts the key set; values of
one key keep their original order). -/
def sortByKey (l : List (String × String)) : List (String × String) :=
  l.foldl (fun acc p => insertByKey p acc) []

/-- Go `url.Values.Encode()`: keys sorted, each pair query-escaped and
joined as `k=v` with `&`. -/
def urlValuesEncode (q : List (String × String)) : String :=
  String.intercalate "&" ((sortByKey q).map (fun p => queryEscape p.1 ++ "=" ++ queryEscape p.2))

/-! ## API key rotation (`server.go` lines 94-103)

```go
var keyIdx uint32 = 0
func nextKey() string {
    // If we get to 2^32 we'll just wrap back to 0
    idx := atomic.AddUint32(&keyIdx, 1)
    return manualKeys[(int(idx)-1)%manualKeysAmount]
}
```

`atomic.AddUint32` wraps modulo `2 ^ 32`; `int(idx) - 1` is 64-bit signed
and Go's `%` is the truncated remainder (`Int.tmod`), so a negative
left operand yields a negative index.  A negative (or otherwise
out-of-range) slice index is a Go runtime panic, modelled as `none`. -/

/-- One call to `nextKey`: given the pool and the current `keyIdx`
counter value, returns the credential drawn (`none` = runtime panic)
and the new counter value. -/
def nextKeyStep (keys : List String) (keyIdx : Nat) : Option String × Nat :=
  let idx : Nat := (keyIdx + 1) % 2 ^ 32
  let j : Int := ((idx : Int) - 1).tmod (keys.length : Int)
  (if 0 ≤ j then keys[j.toNat]? else none, idx)

/-- `n` sequential calls to `nextKey` from process start (`keyIdx = 0`):
the list of drawn credentials in call order, and the final counter. -/
def runNextKey (keys : List String) : Nat → List (Option String) × Nat
  | 0 => ([], 0)
  | n + 1 =>
    let r := runNextKey keys n
    let s := nextKeyStep keys r.2
    (r.1 ++ [s.1], s.2)

/-! ## Metrics ring buffer (`server.go` lines 17-81)

```go
const BUCKETS = 24 * 60 * 60
var (
    secs  [BUCKETS]int64
    hits  [BUCKETS]uint32
    latUs [BUCKETS]uint64
)
```

The three arrays are modelled as functions on slot indices; epoch seconds
are `Nat` (Go `int64`, nonnegative for any realistic clock).  The `uint32`
hit counter and `uint64` latency accumulator wrap modulo their width.
The CAS-based reset race of `recordMetrics` is irrelevant in this
sequential model: the winner's reset happens-before the increments. -/

def BUCKETS : Nat := 24 * 60 * 60

/-- The three global metric arrays of `server.go`. -/
structure MState where
  secs : Nat → Nat
  hits : Nat → Nat
  latUs : Nat → Nat

/-- Zero-initialised globals at process start. -/
def initState : MState := ⟨fun _ => 0, fun _ => 0, fun _ => 0⟩

/-- `recordMetrics` at epoch second `s` with a latency of `us`
microseconds (`uint64(duration.Microseconds())`): claims/resets the slot
when it holds a different second, then increments the hit count (`uint32`)
and adds the latency (`uint64`). -/
def recordMetrics (s us : Nat) (st : MState) : MState :=
  let i := s % BUCKETS
  let st1 :=
    if st.secs i = s then st
    else
      { secs := Function.update st.secs i s,
        hits := Function.update st.hits i 0,
        latUs := Function.update st.latUs i 0 }
  { st1 with
    hits := Function.update st1.hits i ((st1.hits i + 1) % 2 ^ 32),
    latUs := Function.update st1.latUs i ((st1.latUs i + us) % 2 ^ 64) }

/-- `windowSum(lastNSec)` evaluated when `nowSec()` returns `now`:
sums the hit counts of the slots still holding the seconds
`now, now-1, ..., now-lastNSec+1`.  (`now - off` uses `Nat` subtraction;
it agrees with Go's `int64` arithmetic whenever `now ≥ lastNSec - 1`,
which holds for every realistic clock and window.) -/
def windowSum (lastNSec now : Nat) (st : MState) : Nat :=
  ((List.range lastNSec).map (fun off =>
    let t := now - off
    let i := t % BUCKETS
    if st.secs i = t then st.hits i else 0)).sum

/-- `windowLatencyAvgMs(lastNSec)` evaluated at `now`.  The Go request
counter `reqs` is an `int64` accumulating at most `BUCKETS` `uint32`
values (at most `86400 * (2^32 - 1) < 2^63`), so it cannot wrap and is a
plain sum; the Go latency accumulator `totalUs` is a `uint64` whose
`totalUs += tu` wraps modulo `2 ^ 64` at every addition, modelled by the
wrapping fold.  `none` when no requests (Go returns `(0, false)`),
otherwise `totalUs / reqs / 1000` — the Go `float64` division is
modelled exactly over `ℚ`. -/
def windowLatencyAvgMs (lastNSec now : Nat) (st : MState) : Option ℚ :=
  let reqs := ((List.range lastNSec).map (fun off =>
    let t := now - off
    let i := t % BUCKETS
    if st.secs i = t then st.hits i else 0)).sum
  let totalUs := (List.range lastNSec).foldl (fun acc off =>
    let t := now - off
    let i := t % BUCKETS
    (acc + (if st.secs i = t then st.latUs i else 0)) % 2 ^ 64) 0
  if reqs = 0 then none else some ((totalUs : ℚ) / (reqs : ℚ) / 1000)

/-- One `recordMetrics` call per second with constant latency `us`, at the
`w` consecutive epoch seconds `s0, s0+1, ..., s0+w-1`. -/
def recordRun (s0 us : Nat) : Nat → MState
  | 0 => initState
  | w + 1 => recordMetrics (s0 + w) us (recordRun s0 us w)

/-! ## Forwarding URL construction (`server.go` lines 193-213)

```go
pathAndQuery := strings.TrimPrefix(r.RequestURI, "/v1/")
if r.Method == http.MethodPost && strings.Contains(pathAndQuery, "fields=") {
    parts := strings.SplitN(pathAndQuery, "?", 2)
    path := parts[0]
    if len(parts) == 2 {
        q := r.URL.Query()
        q.Del("fields")
        if len(q) > 0 { pathAndQuery = path + "?" + q.Encode() } else { pathAndQuery = path }
    }
}
forward := baseURL + pathAndQuery
```

`r.RequestURI` is the raw request target (percent-encoding untouched);
`r.URL.Query()` is `url.ParseQuery` of the raw query. -/

def baseURL : String := "https://api.clashofclans.com/v1/"

/-- The upstream URL built by the `/v1/` handler for a request with the
given method and raw request target. -/
def buildForwardGo (method requestURI : String) : String :=
  let pathAndQuery := goTrimPre requestURI "/v1/"
  let pathAndQuery :=
    if method == "POST" && goContains pathAndQuery "fields=" then
      match breakAtChar '?' pathAndQuery.data with
      | none => pathAndQuery
      | some (p, _) =>
        let q := delKey "fields" (parseQuery (rawQueryOf requestURI))
        if q ≠ [] then String.mk p ++ "?" ++ urlValuesEncode q else String.mk p
    else pathAndQuery
  baseURL ++ pathAndQuery

/-! ## Response relay (`server.go` lines 254-262)

```go
for _, h := range []string{"cache-control", "expires", "etag", "last-modified", "content-type"} {
    if v := upstreamResp.Header.Get(h); v != "" { w.Header().Set(h, v) }
}
w.WriteHeader(upstreamResp.StatusCode)
```

Upstream headers are modelled as a lookup function from (canonicalised)
header name to value, `""` meaning absent — exactly the view
`http.Header.Get` provides. -/

/-- The response-header allow-list of the `/v1/` handler. -/
def allowedRespHeaders : List String :=
  ["cache-control", "expires", "etag", "last-modified", "content-type"]

/-- The headers set on the client response: each allow-listed header that
is present upstream, in allow-list order. -/
def relayHeaders (up : String → String) : List (String × String) :=
  allowedRespHeaders.filterMap (fun h => if up h ≠ "" then some (h, up h) else none)

/-- Status and headers relayed to the client. -/
def relayResponse (status : Nat) (up : String → String) : Nat × List (String × String) :=
  (status, relayHeaders up)

/-! ## fasthttp variant response relay (`main.go` lines 485-522)

```go
ctx.SetStatusCode(resp.StatusCode())
...
resp.Header.VisitAll(func(key, value []byte) {
    lowerKey := bytes.ToLower(key)
    if bytes.Equal(lowerKey, []byte("content-length")) || bytes.Equal(lowerKey, []byte("content-encoding")) {
        return
    }
    ctx.Response.Header.SetBytesKV(key, value)
})
ctx.Response.Header.Set("Access-Control-Allow-Origin", "*")
```

Upstream headers are an ordered key/value list (the `VisitAll` iteration
order); `SetBytesKV` overwrite semantics coincide with list append for
distinct upstream keys, and the CORS header is set last. -/

/-- Go `bytes.ToLower` on one ASCII char. -/
def asciiLower (c : Char) : Char :=
  if 'A' ≤ c ∧ c ≤ 'Z' then Char.ofNat (c.toNat + 32) else c

/-- Go `bytes.ToLower` (ASCII, as in all HTTP header names). -/
def asciiLowerStr (s : String) : String :=
  String.mk (s.data.map asciiLower)

/-- Status and headers relayed to the client by the fasthttp
`proxyHandler`: every upstream header except `content-length` and
`content-encoding`, then the CORS header. -/
def fasthttpRelay (status : Nat) (upstream : List (String × String)) :
    Nat × List (String × String) :=
  (status,
    (upstream.filter (fun p =>
      !(asciiLowerStr p.1 == "content-length" || asciiLowerStr p.1 == "content-encoding"))) ++
    [("Access-Control-Allow-Origin", "*")])

/-! ## `/v1/` handler control flow (`server.go` lines 187-265)

```go
start := time.Now()
defer func() { recordMetrics(time.Since(start)) }()
...
req, err := http.NewRequestWithContext(...); if err != nil { http.Error(...500); return }
...
upstreamResp, err := client.Do(req); if err != nil { http.Error(...502); return }
... relay headers, status, body
```

The deferred `recordMetrics(time.Since(start))` runs on every return
path.  The handler is modelled as a function from the non-deterministic
environment (did request construction fail; what did `client.Do` yield —
a response, or a transport/timeout error; the elapsed time at exit) to
the list of observable events it performs, in order. -/

/-- Upstream response as seen by the handler. -/
structure UpstreamResp where
  status : Nat
  headers : String → String

/-- Environment of one handler execution: the outcome of each fallible
step and the elapsed duration measured at handler exit. -/
structure HandlerEnv where
  method : String
  requestURI : String
  newReqFails : Bool
  doResult : Except String UpstreamResp
  elapsedUs : Nat

/-- Observable actions of one handler execution. -/
inductive HandlerEvent
  | respondError (msg : String) (status : Nat)
  | respond (status : Nat) (headers : List (String × String))
  | record (elapsedUs : Nat)

/-- The `/v1/` handler: each Go return path, with the deferred
`recordMetrics` firing at that exit. -/
def vOneHandler (env : HandlerEnv) : List HandlerEvent :=
  if env.newReqFails then
    [.respondError "failed to create upstream request" 500, .record env.elapsedUs]
  else
    match env.doResult with
    | .error e =>
      [.respondError ("upstream request failed: " ++ e) 502, .record env.elapsedUs]
    | .ok up =>
      [.respond up.status (relayHeaders up.headers), .record env.elapsedUs]

/-- The durations passed to `recordMetrics` during one execution. -/
def recordedDurations (evs : List HandlerEvent) : List Nat :=
  evs.filterMap (fun e => match e with | .record d => some d | _ => none)

/-! ## Startup key loading (`server.go` lines 121-137)

```go
raw := os.Getenv("COC_KEYS")
if raw == "" { log.Println(...); os.Exit(1) }
for _, k := range strings.Split(raw, ",") {
    k = strings.TrimSpace(k)
    if k != "" { manualKeys = append(manualKeys, k) }
}
manualKeysAmount = len(manualKeys)
if manualKeysAmount == 0 { log.Println(...); os.Exit(1) }
...
http.ListenAndServe(addr, nil)   // only reached past both exits
```
-/

/-- Key parsing: `Except.error` models the `os.Exit(1)` paths. -/
def loadKeys (raw : String) : Except String (List String) :=
  if raw = "" then Except.error "No API keys provided. Set COC_KEYS in env."
  else
    let ks := ((goSplit ',' raw).map goTrimSpace).filter (fun k => k ≠ "")
    if ks = [] then Except.error "No API keys after parsing COC_KEYS. Exiting."
    else Except.ok ks

/-- Outcome of `main` up to the point where the listener binds:
either the process exited with code 1, or the server starts serving
with the parsed pool. -/
inductive StartupResult
  | exited (code : Nat)
  | serving (keys : List String)
deriving DecidableEq

/-- `main`'s startup sequencing: both key-loading exits precede
`http.ListenAndServe`, so the port is bound only on `serving`. -/
def mainStartup (raw : String) : StartupResult :=
  match loadKeys raw with
  | .error _ => .exited 1
  | .ok ks => .serving ks

/-! ## fasthttp variant path rewriting (`main.go` lines 412-441)

```go
path := string(ctx.Path())
if strings.HasPrefix(path, "/v1/") { path = strings.TrimPrefix(path, "/v1/") } else { 404 }
path = strings.ReplaceAll(path, "!", "#")
segments := strings.Split(path, "/")
for i, segment := range segments {
    if strings.HasPrefix(segment, "#") { segments[i] = url.PathEscape(segment) }
}
escapedPath := strings.Join(segments, "/")
fullURL := "https://api.clashofclans.com/v1/" + escapedPath
if queryString != "" { fullURL += "?" + queryString }
```
-/

/-- Go `strings.ReplaceAll(s, "!", "#")`. -/
def replaceBangHash (s : String) : String :=
  String.mk (s.data.map (fun c => if c == '!' then '#' else c))

/-- Whether Go `url.PathEscape` escapes this ASCII char (mode
`encodePathSegment` of `net/url`). -/
def shouldEscapeSeg (c : Char) : Bool :=
  if c.isAlphanum || c == '-' || c == '_' || c == '.' || c == '~' then false
  else if c == '$' || c == '&' || c == '+' || c == ',' || c == '/' || c == ':' ||
      c == ';' || c == '=' || c == '?' || c == '@' then
    c == '/' || c == ';' || c == ',' || c == '?'
  else true

/-- Go `url.PathEscape` (ASCII input, as in all proxied paths). -/
def pathEscapeSeg (s : String) : String :=
  String.mk (s.data.foldr (fun c acc =>
    (if shouldEscapeSeg c then ['%', hexDigit (c.toNat / 16 % 16), hexDigit (c.toNat % 16)]
     else [c]) ++ acc) [])

/-- The upstream URL built by the fasthttp `proxyHandler` from the decoded
request path and the raw query string; `none` models the 404 branch. -/
def fasthttpForwardURL (path queryString : String) : Option String :=
  if "/v1/".data.isPrefixOf path.data then
    let p := goTrimPre path "/v1/"
    let p := replaceBangHash p
    let segs := (splitListChar '/' p.data).map String.mk
    let segs := segs.map (fun seg =>
      if "#".data.isPrefixOf seg.data then pathEscapeSeg seg else seg)
    let escapedPath := String.intercalate "/" segs
    let fullURL := "https://api.clashofclans.com/v1/" ++ escapedPath
    some (if queryString ≠ "" then fullURL ++ "?" ++ queryString else fullURL)
  else none

/-! ## Theorems -/

/-! ### Key rotation (claims C1, C2) -/

lemma runNextKey_length (keys : List String) (n : Nat) :
    (runNextKey keys n).1.length = n := by
  induction n with
  | zero => rfl
  | succ n ih => simp [runNextKey, ih]

lemma runNextKey_state (keys : List String) (n : Nat) :
    (runNextKey keys n).2 = n % 2 ^ 32 := by
  induction n with
  | zero => rfl
  | succ n ih =>
    simp only [runNextKey, nextKeyStep, ih]
    rw [Nat.add_mod n 1, Nat.mod_eq_of_lt (show (1 : Nat) < 2 ^ 32 by norm_num)]

lemma nextKeyStep_no_wrap (keys : List String) (c : Nat) (hc : c + 1 < 2 ^ 32) :
    nextKeyStep keys c = (keys[c % keys.length]?, c + 1) := by
  simp only [nextKeyStep, Nat.mod_eq_of_lt hc]
  have h2 : (((c + 1 : Nat) : Int) - 1) = ((c : Nat) : Int) := by push_cast; ring
  rw [h2, ← Int.ofNat_tmod]
  rw [if_pos (Int.natCast_nonneg _)]
  simp only [Int.toNat_natCast]

lemma runNextKey_outputs (keys : List String) (n : Nat) (hn : n < 2 ^ 32) :
    (runNextKey keys n).1 = (List.range n).map (fun c => keys[c % keys.length]?) := by
  induction n with
  | zero => rfl
  | succ n ih =>
    have hn' : n < 2 ^ 32 := Nat.lt_of_succ_lt hn
    simp only [runNextKey, List.range_succ, List.map_append, List.map_cons, List.map_nil]
    rw [ih hn', runNextKey_state keys n, Nat.mod_eq_of_lt hn',
      nextKeyStep_no_wrap keys n hn]

lemma countP_mod_range (K j : Nat) (hK : 0 < K) (hj : j < K) (n : Nat) :
    ((List.range n).countP (fun c => c % K == j)) =
      n / K + if j < n % K then 1 else 0 := by
  induction n with
  | zero => simp
  | succ n ih =>
    rw [List.range_succ, List.countP_append, ih]
    have hrK : n % K < K := Nat.mod_lt n hK
    have hnq : K * (n / K) + n % K = n := Nat.div_add_mod n K
    have hsucc : n + 1 = K * (n / K) + (n % K + 1) := by omega
    have hm : (n + 1) % K = (n % K + 1) % K := by rw [hsucc, Nat.mul_add_mod]
    have hd : (n + 1) / K = n / K + (n % K + 1) / K := by
      rw [hsucc, Nat.mul_add_div hK]
    simp only [List.countP_cons, List.countP_nil, Nat.zero_add, beq_iff_eq]
    rcases Nat.lt_or_ge (n % K + 1) K with h | h
    · have hm' : (n + 1) % K = n % K + 1 := by rw [hm, Nat.mod_eq_of_lt h]
      have hd' : (n + 1) / K = n / K := by rw [hd, Nat.div_eq_of_lt h, Nat.add_zero]
      rw [hm', hd']
      split_ifs <;> omega
    · have hKe : n % K + 1 = K := by omega
      have hm' : (n + 1) % K = 0 := by rw [hm, hKe, Nat.mod_self]
      have hd' : (n + 1) / K = n / K + 1 := by
        rw [hd, hKe, Nat.div_self hK]
      rw [hm', hd']
      split_ifs <;> omega

/-- Claim C1 (amended): for a pool of `K ≥ 1` credentials loaded in order
and any `N < 2 ^ 32` calls to `nextKey` from process start (before the
`uint32` rotation counter wraps), the returned credentials are exactly `N`
mod-`K` cycles through the pool in load order: call `c` returns credential
`c % K`, so each pool position is drawn `⌊N/K⌋ + 1` times when its index is
below `N % K` and `⌊N/K⌋` times otherwise — its fair share plus at most
one, with no credential skipped. -/
theorem nextKey_roundRobin (keys : List String) (hK : 0 < keys.length)
    (n : Nat) (hn : n < 2 ^ 32) :
    (runNextKey keys n).1 = (List.range n).map (fun c => keys[c % keys.length]?) ∧
    ∀ j, j < keys.length →
      ((List.range n).countP (fun c => c % keys.length == j)) =
        n / keys.length + if j < n % keys.length then 1 else 0 := by
  refine ⟨runNextKey_outputs keys n hn, fun j hj => ?_⟩
  exact countP_mod_range keys.length j hK hj n

/-- Witness for `nextKey_roundRobin` at `keys = ["a", "b"]`, `n = 5`. -/
theorem nextKey_roundRobin_witness :
    0 < (["a", "b"] : List String).length ∧ 5 < 2 ^ 32 ∧
    (runNextKey ["a", "b"] 5).1 =
      (List.range 5).map (fun c => (["a", "b"] : List String)[c % (["a", "b"] : List String).length]?) :=
  ⟨by decide, by norm_num,
    (nextKey_roundRobin ["a", "b"] (by decide) 5 (by norm_num)).1⟩

lemma runNextKey_last (keys : List String) (n : Nat) :
    (runNextKey keys (n + 1)).1.getLast? = some (nextKeyStep keys (n % 2 ^ 32)).1 := by
  simp [runNextKey, runNextKey_state, List.getLast?_concat]

/-- Claim C1 as stated (every `N`) is false on the code: at `N = 2 ^ 32`
with the pool `["a", "b"]`, the last call hits the counter wrap — Go
computes `(int(0)-1) % 2 = -1` and indexes `manualKeys[-1]`, a runtime
panic (`none` in the model) instead of a credential, so the returned
multiset is not `N` mod-`K` cycles through the pool. -/
theorem nextKey_roundRobin_cex :
    (runNextKey ["a", "b"] (2 ^ 32)).1 ≠
      (List.range (2 ^ 32)).map
        (fun c => (["a", "b"] : List String)[c % (["a", "b"] : List String).length]?) := by
  intro heq
  have hsplit : (2 : Nat) ^ 32 = 4294967295 + 1 := by norm_num
  rw [hsplit] at heq
  have hlast := congrArg List.getLast? heq
  rw [runNextKey_last ["a", "b"] 4294967295] at hlast
  rw [List.range_succ, List.map_append] at hlast
  simp only [List.map_cons, List.map_nil, List.getLast?_concat] at hlast
  have hstate : (4294967295 : Nat) % 2 ^ 32 = 4294967295 := Nat.mod_eq_of_lt (by norm_num)
  rw [hstate] at hlast
  have hstep : (nextKeyStep ["a", "b"] 4294967295).1 = none := by decide
  rw [hstep] at hlast
  have hmod : (4294967295 : Nat) % (["a", "b"] : List String).length = 1 := by decide
  rw [hmod] at hlast
  simp at hlast

/-- Claim C2: the code's own comment says the `uint32` counter "will just
wrap back to 0", but at the wrap (`keyIdx = 2 ^ 32 - 1`, pool of size 2)
the next call evaluates `manualKeys[(int(0)-1) % 2] = manualKeys[-1]` and
panics (`none`) instead of returning a credential. -/
theorem nextKey_wrap_panics :
    nextKeyStep ["a", "b"] (2 ^ 32 - 1) = (none, 0) := by decide

/-! ### Metrics ring buffer (claims C3, C4) -/

lemma recordMetrics_secs_self (s us : Nat) (st : MState) :
    (recordMetrics s us st).secs (s % BUCKETS) = s := by
  by_cases h : st.secs (s % BUCKETS) = s <;>
    simp [recordMetrics, h, Function.update_same]

lemma recordMetrics_at (s us : Nat) (st : MState)
    (h : st.secs (s % BUCKETS) ≠ s ∨
      (st.hits (s % BUCKETS) = 0 ∧ st.latUs (s % BUCKETS) = 0)) :
    (recordMetrics s us st).secs (s % BUCKETS) = s ∧
    (recordMetrics s us st).hits (s % BUCKETS) = 1 ∧
    (recordMetrics s us st).latUs (s % BUCKETS) = us % 2 ^ 64 := by
  have h1 : (1 : Nat) % 2 ^ 32 = 1 := Nat.mod_eq_of_lt (by norm_num)
  by_cases hc : st.secs (s % BUCKETS) = s
  · rcases h with h | ⟨hh, hl⟩
    · exact absurd hc h
    · simp [recordMetrics, hc, hh, hl, Function.update_same, h1]
  · simp [recordMetrics, hc, Function.update_same, h1]

lemma recordMetrics_other (s us i : Nat) (st : MState) (hi : i ≠ s % BUCKETS) :
    (recordMetrics s us st).secs i = st.secs i ∧
    (recordMetrics s us st).hits i = st.hits i ∧
    (recordMetrics s us st).latUs i = st.latUs i := by
  by_cases hc : st.secs (s % BUCKETS) = s <;>
    simp [recordMetrics, hc, Function.update_noteq hi]

lemma recordRun_inv (s0 us : Nat) : ∀ w i,
    ((recordRun s0 us w).secs i = 0 ∧ (recordRun s0 us w).hits i = 0 ∧
      (recordRun s0 us w).latUs i = 0) ∨
    ∃ j, j < w ∧ (s0 + j) % BUCKETS = i ∧ (recordRun s0 us w).secs i = s0 + j := by
  intro w
  induction w with
  | zero => exact fun i => Or.inl ⟨rfl, rfl, rfl⟩
  | succ w ih =>
    intro i
    by_cases hi : i = (s0 + w) % BUCKETS
    · right
      refine ⟨w, Nat.lt_succ_self w, hi.symm, ?_⟩
      subst hi
      simpa [recordRun] using recordMetrics_secs_self (s0 + w) us (recordRun s0 us w)
    · have hother := recordMetrics_other (s0 + w) us i (recordRun s0 us w) hi
      rcases ih i with hz | ⟨j, hj, hji, hsec⟩
      · left
        refine ⟨?_, ?_, ?_⟩ <;> simp only [recordRun]
        · rw [hother.1]; exact hz.1
        · rw [hother.2.1]; exact hz.2.1
        · rw [hother.2.2]; exact hz.2.2
      · right
        refine ⟨j, Nat.lt_succ_of_lt hj, hji, ?_⟩
        simp only [recordRun]
        rw [hother.1]; exact hsec

/-- `BUCKETS` consecutive records never collide: within the last `BUCKETS`
writes, each second owns its slot.  Written seconds `s0 + j` with
`j < w ≤ j + BUCKETS` (the last ring cycle) are intact: the slot holds
that second, one hit, and `us` microseconds. -/
lemma recordRun_slot (s0 us : Nat) : ∀ w j, j < w → w ≤ j + BUCKETS →
    (recordRun s0 us w).secs ((s0 + j) % BUCKETS) = s0 + j ∧
    (recordRun s0 us w).hits ((s0 + j) % BUCKETS) = 1 ∧
    (recordRun s0 us w).latUs ((s0 + j) % BUCKETS) = us % 2 ^ 64 := by
  have hB : 0 < BUCKETS := by norm_num [BUCKETS]
  intro w
  induction w with
  | zero => exact fun j hj _ => absurd hj (Nat.not_lt_zero j)
  | succ w ih =>
    intro j hj hlast
    rcases Nat.lt_succ_iff_lt_or_eq.mp hj with hjw | rfl
    · have hne : (s0 + j) % BUCKETS ≠ (s0 + w) % BUCKETS := by
        intro he
        have h2 : Nat.ModEq BUCKETS j w := Nat.ModEq.add_left_cancel' s0 he
        have h3 : BUCKETS ∣ w - j := (Nat.modEq_iff_dvd' (le_of_lt hjw)).mp h2
        have h5 : BUCKETS ≤ w - j := Nat.le_of_dvd (by omega) h3
        omega
      have hother :=
        recordMetrics_other (s0 + w) us ((s0 + j) % BUCKETS) (recordRun s0 us w) hne
      have hih := ih j hjw (by omega)
      refine ⟨?_, ?_, ?_⟩ <;> simp only [recordRun]
      · rw [hother.1]; exact hih.1
      · rw [hother.2.1]; exact hih.2.1
      · rw [hother.2.2]; exact hih.2.2
    · have hinv := recordRun_inv s0 us j ((s0 + j) % BUCKETS)
      have hcond : (recordRun s0 us j).secs ((s0 + j) % BUCKETS) ≠ s0 + j ∨
          ((recordRun s0 us j).hits ((s0 + j) % BUCKETS) = 0 ∧
            (recordRun s0 us j).latUs ((s0 + j) % BUCKETS) = 0) := by
        rcases hinv with ⟨_, h2, h3⟩ | ⟨j', hj', _, hsec⟩
        · exact Or.inr ⟨h2, h3⟩
        · left
          rw [hsec]
          intro hcontra
          omega
      have hrec := recordMetrics_at (s0 + j) us (recordRun s0 us j) hcond
      refine ⟨?_, ?_, ?_⟩ <;> simp only [recordRun] <;>
        [exact hrec.1; exact hrec.2.1; exact hrec.2.2]

lemma sum_map_const_range (n c : Nat) :
    ((List.range n).map (fun _ => c)).sum = n * c := by
  induction n with
  | zero => simp
  | succ n ih =>
    rw [List.range_succ, List.map_append, List.sum_append]
    simp [ih, Nat.succ_mul]

/-- A left fold that wraps modulo `m` at every addition (the Go `uint64`
accumulation `totalUs += tu`) equals the single wrap of the full sum. -/
lemma foldl_add_mod (m : Nat) (hm : 0 < m) (f : Nat → Nat) :
    ∀ (l : List Nat) (a : Nat), a < m →
      l.foldl (fun acc x => (acc + f x) % m) a = (a + (l.map f).sum) % m := by
  intro l
  induction l with
  | nil =>
    intro a ha
    simp [Nat.mod_eq_of_lt ha]
  | cons x xs ih =>
    intro a ha
    simp only [List.foldl_cons, List.map_cons, List.sum_cons]
    rw [ih ((a + f x) % m) (Nat.mod_lt _ hm), Nat.mod_add_mod, Nat.add_assoc]

/-- Claim C3 (amended): one `recordMetrics` per second with latency `L`
ms (`1000 * L` µs) at the `W` consecutive seconds `s0 .. s0+W-1`, with
`1 ≤ W ≤ BUCKETS` and `W * 1000 * L < 2 ^ 64` (the window's total
latency fits the `uint64` accumulator, which otherwise wraps);
immediately afterwards (at `now = s0 + W - 1`), `windowSum W = W` and
`windowLatencyAvgMs W = L` exactly (the `ℚ`-exact value of the Go
`float64` division). -/
theorem metrics_window_accurate (s0 L w : Nat) (h1 : 1 ≤ w) (h2 : w ≤ BUCKETS)
    (hL : w * (1000 * L) < 2 ^ 64) :
    windowSum w (s0 + (w - 1)) (recordRun s0 (1000 * L) w) = w ∧
    windowLatencyAvgMs w (s0 + (w - 1)) (recordRun s0 (1000 * L) w) = some (L : ℚ) := by
  have h1L : 1000 * L < 2 ^ 64 :=
    lt_of_le_of_lt (Nat.le_mul_of_pos_left (1000 * L) (by omega)) hL
  have key : ∀ off, off < w →
      (recordRun s0 (1000 * L) w).secs ((s0 + (w - 1) - off) % BUCKETS) =
        s0 + (w - 1) - off ∧
      (recordRun s0 (1000 * L) w).hits ((s0 + (w - 1) - off) % BUCKETS) = 1 ∧
      (recordRun s0 (1000 * L) w).latUs ((s0 + (w - 1) - off) % BUCKETS) =
        (1000 * L) % 2 ^ 64 := by
    intro off hoff
    have harith : s0 + (w - 1) - off = s0 + (w - 1 - off) := by omega
    rw [harith]
    exact recordRun_slot s0 (1000 * L) w (w - 1 - off) (by omega) (by omega)
  have hsum : windowSum w (s0 + (w - 1)) (recordRun s0 (1000 * L) w) = w := by
    unfold windowSum
    rw [List.map_congr_left (g := fun _ => (1 : Nat)) ?_, sum_map_const_range, Nat.mul_one]
    intro off hoff
    have hoff' : off < w := List.mem_range.mp hoff
    simp [(key off hoff').1, (key off hoff').2.1]
  refine ⟨hsum, ?_⟩
  unfold windowLatencyAvgMs
  have hreqs :
      ((List.range w).map (fun off =>
        if (recordRun s0 (1000 * L) w).secs ((s0 + (w - 1) - off) % BUCKETS) =
            s0 + (w - 1) - off
        then (recordRun s0 (1000 * L) w).hits ((s0 + (w - 1) - off) % BUCKETS)
        else 0)).sum = w := hsum
  have htot :
      ((List.range w).map (fun off =>
        if (recordRun s0 (1000 * L) w).secs ((s0 + (w - 1) - off) % BUCKETS) =
            s0 + (w - 1) - off
        then (recordRun s0 (1000 * L) w).latUs ((s0 + (w - 1) - off) % BUCKETS)
        else 0)).sum = w * (1000 * L) := by
    rw [List.map_congr_left (g := fun _ => (1000 * L : Nat)) ?_, sum_map_const_range]
    intro off hoff
    have hoff' : off < w := List.mem_range.mp hoff
    have hm : 1000 * L % 2 ^ 64 = 1000 * L := Nat.mod_eq_of_lt h1L
    simp [(key off hoff').1, (key off hoff').2.2, hm]
    exact lt_of_lt_of_eq h1L (by norm_num)
  have hfold : (List.range w).foldl (fun acc off =>
      (acc + (if (recordRun s0 (1000 * L) w).secs ((s0 + (w - 1) - off) % BUCKETS) =
          s0 + (w - 1) - off
        then (recordRun s0 (1000 * L) w).latUs ((s0 + (w - 1) - off) % BUCKETS)
        else 0)) % 2 ^ 64) 0 = w * (1000 * L) := by
    rw [foldl_add_mod (2 ^ 64) (by norm_num)
      (fun off =>
        if (recordRun s0 (1000 * L) w).secs ((s0 + (w - 1) - off) % BUCKETS) =
            s0 + (w - 1) - off
        then (recordRun s0 (1000 * L) w).latUs ((s0 + (w - 1) - off) % BUCKETS)
        else 0)
      (List.range w) 0 (by norm_num)]
    rw [Nat.zero_add, htot, Nat.mod_eq_of_lt hL]
  simp only [hreqs, hfold]
  rw [if_neg (by omega)]
  congr 1
  have hw0 : (w : ℚ) ≠ 0 := by
    have : w ≠ 0 := by omega
    exact_mod_cast this
  push_cast
  field_simp

/-- Claim C4: after more than `BUCKETS` consecutive seconds of
one-request-per-second traffic, `windowSum BUCKETS` is still exactly
`BUCKETS`: each slot holds only the one second of the last ring cycle —
overwritten old data is neither double-counted nor leaked. -/
theorem metrics_full_window (s0 L w : Nat) (hw : BUCKETS < w) :
    windowSum BUCKETS (s0 + (w - 1)) (recordRun s0 (1000 * L) w) = BUCKETS := by
  unfold windowSum
  rw [List.map_congr_left (g := fun _ => (1 : Nat)) ?_, sum_map_const_range, Nat.mul_one]
  intro off hoff
  have hoff' : off < BUCKETS := List.mem_range.mp hoff
  have harith : s0 + (w - 1) - off = s0 + (w - 1 - off) := by omega
  have hslot := recordRun_slot s0 (1000 * L) w (w - 1 - off) (by omega) (by omega)
  rw [harith]
  simp [hslot.1, hslot.2.1]

/-- Witness for `metrics_window_accurate` at `s0 = 10`, `L = 7`, `W = 3`. -/
theorem metrics_window_accurate_witness :
    1 ≤ 3 ∧ 3 ≤ BUCKETS ∧ 3 * (1000 * 7) < 2 ^ 64 ∧
    (windowSum 3 (10 + (3 - 1)) (recordRun 10 (1000 * 7) 3) = 3 ∧
     windowLatencyAvgMs 3 (10 + (3 - 1)) (recordRun 10 (1000 * 7) 3) = some (7 : ℚ)) :=
  ⟨by norm_num, by norm_num [BUCKETS], by norm_num,
    metrics_window_accurate 10 7 3 (by norm_num) (by norm_num [BUCKETS]) (by norm_num)⟩

/-- Claim C3 as stated (any latency `L`) is false on the code: at
`W = 2`, `L = 10^16` ms (records at seconds 10 and 11, queried at
`now = s0 + (W-1) = 11`), each record adds `10^19` µs and the `uint64`
accumulator `totalUs` wraps modulo `2 ^ 64`, so the program reports
`97078495393153024 / 125 ≈ 7.766·10^14` ms — below `10^15`, nowhere
near the true average `10^16` ms. -/
theorem metrics_window_accurate_cex :
    windowLatencyAvgMs 2 11 (recordRun 10 (1000 * 10 ^ 16) 2) =
      some ((97078495393153024 : ℚ) / 125) ∧
    ((97078495393153024 : ℚ) / 125) < 10 ^ 15 ∧ (10 ^ 15 : ℚ) < 10 ^ 16 := by
  refine ⟨?_, by norm_num, by norm_num⟩
  have hreq : ((List.range 2).map (fun off =>
      if (recordRun 10 (1000 * 10 ^ 16) 2).secs ((11 - off) % BUCKETS) = 11 - off
      then (recordRun 10 (1000 * 10 ^ 16) 2).hits ((11 - off) % BUCKETS)
      else 0)).sum = 2 := by decide
  have htot : (List.range 2).foldl (fun acc off =>
      (acc + (if (recordRun 10 (1000 * 10 ^ 16) 2).secs ((11 - off) % BUCKETS) = 11 - off
        then (recordRun 10 (1000 * 10 ^ 16) 2).latUs ((11 - off) % BUCKETS)
        else 0)) % 2 ^ 64) 0 = 1553255926290448384 := by decide
  unfold windowLatencyAvgMs
  simp only [hreq, htot]
  rw [if_neg (by norm_num)]
  norm_num

/-- Witness for `metrics_full_window` at `s0 = 0`, `L = 7`, `w = BUCKETS + 1`. -/
theorem metrics_full_window_witness :
    BUCKETS < 86401 ∧
    windowSum BUCKETS (0 + (86401 - 1)) (recordRun 0 (1000 * 7) 86401) = BUCKETS :=
  ⟨by norm_num [BUCKETS], metrics_full_window 0 7 86401 (by norm_num [BUCKETS])⟩

/-! ### Handler control flow (claim C5) -/

/-- Claim C5: on every execution of the `/v1/` handler — request-creation
failure, transport failure or timeout (`client.Do` error), or any upstream
response (success or error status alike) — the deferred
`recordMetrics(time.Since(start))` runs exactly once, with the elapsed
time measured from handler entry to handler exit. -/
theorem handler_records_once (env : HandlerEnv) :
    recordedDurations (vOneHandler env) = [env.elapsedUs] := by
  rcases env with ⟨m, u, nf, dr, el⟩
  cases nf <;> cases dr <;> simp [vOneHandler, recordedDurations]

/-! ### URL rewriting (claims C6, C7) -/

/-- Claim C6: a GET for `/v1/clans/%23ABC123` is forwarded to an upstream
URL containing the literal `%23ABC123` — the percent-encoding of the raw
request target is preserved byte-for-byte, neither decoded to `#` nor
double-encoded to `%2523`. -/
theorem forward_preserves_percent_encoding :
    buildForwardGo "GET" "/v1/clans/%23ABC123" =
      "https://api.clashofclans.com/v1/clans/%23ABC123" ∧
    goContains (buildForwardGo "GET" "/v1/clans/%23ABC123") "%23ABC123" = true ∧
    goContains (buildForwardGo "GET" "/v1/clans/%23ABC123") "#" = false ∧
    goContains (buildForwardGo "GET" "/v1/clans/%23ABC123") "%2523" = false := by
  decide

/-- Claim C7: a POST for `/v1/clans?fields=x&name=y` drops the `fields`
query parameter before forwarding and keeps every other parameter: the
upstream query string is exactly `name=y`. -/
theorem post_strips_fields :
    buildForwardGo "POST" "/v1/clans?fields=x&name=y" =
      "https://api.clashofclans.com/v1/clans?name=y" ∧
    goContains (buildForwardGo "POST" "/v1/clans?fields=x&name=y") "fields" = false ∧
    goContains (buildForwardGo "POST" "/v1/clans?fields=x&name=y") "name=y" = true := by
  decide

/-! ### Startup key loading (claim C8) -/

lemma mainStartup_eq (raw : String) :
    mainStartup raw =
      if raw = "" then .exited 1
      else if (((goSplit ',' raw).map goTrimSpace).filter (fun k => k ≠ "")) = [] then
        .exited 1
      else .serving (((goSplit ',' raw).map goTrimSpace).filter (fun k => k ≠ "")) := by
  unfold mainStartup loadKeys
  by_cases hr : raw = ""
  · rw [if_pos hr, if_pos hr]
  · rw [if_neg hr, if_neg hr]
    by_cases hk : (((goSplit ',' raw).map goTrimSpace).filter (fun k => k ≠ "")) = []
    · rw [if_pos hk, if_pos hk]
    · rw [if_neg hk, if_neg hk]

/-- Claim C8: when the credential configuration yields zero usable keys
after trimming (empty or whitespace-only entries), startup exits with
code 1 before `http.ListenAndServe` is reached — the listening port is
never bound; and whenever the server does serve, its pool is non-empty. -/
theorem empty_keys_fail_startup (raw : String) :
    ((((goSplit ',' raw).map goTrimSpace).filter (fun k => k ≠ "")) = [] →
      mainStartup raw = .exited 1) ∧
    (∀ ks, mainStartup raw = .serving ks → ks ≠ []) := by
  rw [mainStartup_eq]
  constructor
  · intro hemp
    by_cases hr : raw = ""
    · rw [if_pos hr]
    · rw [if_neg hr, if_pos hemp]
  · intro ks hks
    by_cases hr : raw = ""
    · rw [if_pos hr] at hks
      exact StartupResult.noConfusion hks
    · rw [if_neg hr] at hks
      by_cases hk : (((goSplit ',' raw).map goTrimSpace).filter (fun k => k ≠ "")) = []
      · rw [if_pos hk] at hks
        exact StartupResult.noConfusion hks
      · rw [if_neg hk] at hks
        injection hks with h
        rw [← h]
        exact hk

/-- Witness for `empty_keys_fail_startup` at the whitespace-only
configuration `"  , "`. -/
theorem empty_keys_fail_startup_witness :
    mainStartup "  , " = .exited 1 :=
  (empty_keys_fail_startup "  , ").1 (by decide)

/-! ### Response relay (claim C9) -/

lemma fasthttpKeep_iff (p : String × String) :
    ((!(asciiLowerStr p.1 == "content-length" ||
        asciiLowerStr p.1 == "content-encoding")) = true) ↔
    (asciiLowerStr p.1 ≠ "content-length" ∧ asciiLowerStr p.1 ≠ "content-encoding") := by
  simp [not_or]

/-- Claim C9 (amended): in the net/http variant (`server.go`) the relayed
response carries the upstream status code verbatim and its headers are
exactly the allow-listed upstream headers that are present
(`cache-control`, `expires`, `etag`, `last-modified`, `content-type`),
every other upstream header dropped; the fasthttp variant (`main.go`)
also copies the status verbatim but relays every upstream header except
`content-length` and `content-encoding`, adding
`Access-Control-Allow-Origin: *`. -/
theorem relay_status_and_allowlist (status : Nat) (up : String → String)
    (fstatus : Nat) (ups : List (String × String)) :
    ((relayResponse status up).1 = status ∧
      ∀ h v, (h, v) ∈ (relayResponse status up).2 ↔
        (h ∈ allowedRespHeaders ∧ up h = v ∧ v ≠ "")) ∧
    ((fasthttpRelay fstatus ups).1 = fstatus ∧
      ∀ h v, (h, v) ∈ (fasthttpRelay fstatus ups).2 ↔
        (((h, v) ∈ ups ∧ asciiLowerStr h ≠ "content-length" ∧
            asciiLowerStr h ≠ "content-encoding") ∨
          (h, v) = ("Access-Control-Allow-Origin", "*"))) := by
  refine ⟨⟨rfl, fun h v => ?_⟩, rfl, fun h v => ?_⟩
  · simp only [relayResponse, relayHeaders, List.mem_filterMap]
    constructor
    · rintro ⟨a, ha, hf⟩
      by_cases hne : up a = ""
      · simp [hne] at hf
      · simp only [hne, ne_eq, not_false_iff, if_true, Option.some.injEq, Prod.mk.injEq,
          reduceIte] at hf
        obtain ⟨rfl, rfl⟩ := hf
        exact ⟨ha, rfl, hne⟩
    · rintro ⟨hmem, hv, hne⟩
      refine ⟨h, hmem, ?_⟩
      rw [hv]
      simp [hne]
  · simp only [fasthttpRelay, List.mem_append, List.mem_filter, List.mem_singleton]
    constructor
    · rintro (⟨hm, hf⟩ | hm)
      · exact Or.inl ⟨hm, (fasthttpKeep_iff (h, v)).mp hf⟩
      · exact Or.inr hm
    · rintro (⟨hm, hcond⟩ | he)
      · exact Or.inl ⟨hm, (fasthttpKeep_iff (h, v)).mpr hcond⟩
      · exact Or.inr he

/-- Claim C9 as stated ("every other upstream header is dropped", for
every relayed response) is false on its cited `main.go` relay: an
upstream response carrying the non-allow-listed header
`X-RateLimit-Remaining: 42` is relayed by the fasthttp handler with that
header kept. -/
theorem relay_allowlist_cex :
    ("X-RateLimit-Remaining", "42") ∈
      (fasthttpRelay 200 [("X-RateLimit-Remaining", "42")]).2 ∧
    "X-RateLimit-Remaining" ∉ allowedRespHeaders ∧
    asciiLowerStr "X-RateLimit-Remaining" ∉ allowedRespHeaders := by
  decide

/-! ### fasthttp path rewriting (claim C10) -/

/-- Claim C10: the fasthttp variant rewrites every `!` in the (decoded)
request path to `#` and percent-encodes each path segment that then
starts with `#`, so `/v1/clans/!ABC123` is forwarded to the upstream path
containing `%23ABC123`. -/
theorem fasthttp_bang_rewrite :
    fasthttpForwardURL "/v1/clans/!ABC123" "" =
      some "https://api.clashofclans.com/v1/clans/%23ABC123" ∧
    goContains "https://api.clashofclans.com/v1/clans/%23ABC123" "%23ABC123" = true := by
  decide

end CK
